import Mathlib

/-!
# Verification of the AutoGrade AI front-end (Gemini-AI-Studio)

Shallow embedding of the repository's TypeScript source:

* `services/geminiService.ts` — `withRetry`, `extractQuestionFromImage`,
  `gradeLatexSubmission` (response handling);
* `App.tsx` — `handleGrading` and the debounced re-grading effect;
* `components/QuestionSetup.tsx` — `handleScanQuestion` (merge of extracted
  question details);
* `components/LatexPreview`/`LatexEditor.tsx` — `getRenderableContent`,
  `MathBlock`, `applySuggestion`;
* `components/FormattedText.tsx` — `MathRenderer`, `TextWithImplicitMath`,
  `FormattedText`.

Strings are modelled as `List Char`; JavaScript regular expressions are
modelled either by hand-rolled matchers that mirror the alternatives of the
concrete regex (for the delimiter and document-body regexes) or by a small
backtracking regex engine (for the implicit-math heuristic regex), with the
JS leftmost-match / alternation-order / greedy-vs-lazy semantics.
-/

set_option maxRecDepth 10000

namespace AutoGrade

/-! ## String helpers (JS semantics) -/

/-- Case-sensitive literal match of `pat` against a prefix of `s`;
returns the rest of `s` after the pattern. -/
def matchExact : List Char → List Char → Option (List Char)
  | [], s => some s
  | _ :: _, [] => none
  | p :: ps, c :: cs => if c = p then matchExact ps cs else none

/-- Case-insensitive literal match (JS `/i` flag), returning the rest. -/
def matchCI : List Char → List Char → Option (List Char)
  | [], s => some s
  | _ :: _, [] => none
  | p :: ps, c :: cs => if c.toLower = p.toLower then matchCI ps cs else none

/-- `pat` is a prefix of `s` (JS `String.startsWith`). -/
def startsW (pat s : List Char) : Bool := (matchExact pat s).isSome

/-- `pat` is a suffix of `s` (JS `String.endsWith`). -/
def endsW (pat s : List Char) : Bool := (matchExact pat.reverse s.reverse).isSome

/-- JS `String.includes` on char lists. -/
def containsSubL (s pat : List Char) : Bool :=
  match s with
  | [] => (matchExact pat []).isSome
  | _ :: cs => (matchExact pat s).isSome || containsSubL cs pat

/-- JS `String.includes`. -/
def strContains (s pat : String) : Bool := containsSubL s.toList pat.toList

/-- JS `String.toLowerCase` (ASCII-adequate for the strings this code compares). -/
def toLowerS (s : String) : String := String.mk (s.toList.map Char.toLower)

/-- JS `\s` character class (whitespace, as used by the regexes and `trim`). -/
def jsSpace (c : Char) : Bool :=
  c = ' ' || c = '\t' || c = '\n' || c = '\r' || c = '\x0b' || c = '\x0c' || c = ' '

/-- JS `String.trim` on char lists. -/
def jsTrim (s : List Char) : List Char :=
  ((s.dropWhile jsSpace).reverse.dropWhile jsSpace).reverse

/-- JS `String.trim`. -/
def jsTrimS (s : String) : String := String.mk (jsTrim s.toList)

/-- JS `||` on optional strings: `undefined` and `""` are falsy. -/
def jsOrStr (a b : Option String) : Option String :=
  match a with
  | none => b
  | some s => if s = "" then b else some s

/-- JS `||` on optional numbers: `undefined` and `0` are falsy. -/
def jsOrNat (a b : Option Nat) : Option Nat :=
  match a with
  | none => b
  | some 0 => b
  | some n => some n

/-! ## Retry wrapper (`withRetry`, geminiService.ts lines 19-60) -/

/-- Retry configuration, `RETRY_CONFIG` in geminiService.ts. -/
structure RetryConfig where
  maxRetries : Nat
  initialDelay : Nat
  backoffFactor : Nat

def RETRY_CONFIG : RetryConfig := { maxRetries := 3, initialDelay := 2000, backoffFactor := 2 }

/-- A thrown service error: `status` models `error.status || error.response?.status`
(`none` = undefined), `message` models `error.message || ''`. -/
structure ApiError where
  status : Option Nat
  message : String
deriving DecidableEq

/-- The outcome of one invocation of the wrapped operation. -/
inductive CallOutcome (T : Type) where
  | ok : T → CallOutcome T
  | err : ApiError → CallOutcome T

/-- `isQuota` classification: `status === 429 || message.includes('429') ||
message.toLowerCase().includes('quota')`. -/
def isQuota (e : ApiError) : Bool :=
  e.status == some 429 || strContains e.message "429" ||
    strContains (toLowerS e.message) "quota"

/-- `isServer` classification: `status >= 500 || message.includes('500') ||
message.includes('503') || message.includes('overloaded')` (an undefined
status compares false). -/
def isServer (e : ApiError) : Bool :=
  (match e.status with
   | some n => decide (500 ≤ n)
   | none => false) ||
  strContains e.message "500" || strContains e.message "503" ||
    strContains e.message "overloaded"

/-- An error the loop retries on. -/
def retriable (e : ApiError) : Bool := isQuota e || isServer e

/-- Accumulated observable behaviour of the retry loop: final outcome
(the `lastError` before message enhancement, or the success value), number
of invocations of the operation, and the total awaited delay in ms. -/
structure RunStats (T : Type) where
  outcome : Except ApiError T
  calls : Nat
  totalDelay : Nat

/-- The `for` loop of `withRetry`: `op attempt` is the result of the
invocation at index `attempt`; `currentDelay` doubles after each retried
failure. -/
def retryLoop {T : Type} (op : Nat → CallOutcome T) (attempt currentDelay : Nat) :
    RunStats T :=
  match op attempt with
  | .ok v => ⟨.ok v, 1, 0⟩
  | .err e =>
    if _h : attempt < RETRY_CONFIG.maxRetries ∧ retriable e = true then
      let rest := retryLoop op (attempt + 1) (currentDelay * RETRY_CONFIG.backoffFactor)
      ⟨rest.outcome, rest.calls + 1, currentDelay + rest.totalDelay⟩
    else
      ⟨.error e, 1, 0⟩
termination_by RETRY_CONFIG.maxRetries - attempt
decreasing_by
  simp only [RETRY_CONFIG] at *
  omega

/-- Result of `withRetry`: either the operation's value or the thrown
user-facing error message, together with call count and cumulative delay. -/
structure WithRetryResult (T : Type) where
  result : Except String T
  calls : Nat
  totalDelay : Nat

/-- `withRetry` (geminiService.ts): runs the retry loop from attempt 0 with
the initial delay, then turns a persisting error into the user-facing
message. -/
def withRetry {T : Type} (op : Nat → CallOutcome T) (description : String) :
    WithRetryResult T :=
  let r := retryLoop op 0 RETRY_CONFIG.initialDelay
  match r.outcome with
  | .ok v => ⟨.ok v, r.calls, r.totalDelay⟩
  | .error e =>
    let message := if e.message = "" then "Unknown error" else e.message
    if e.status == some 429 || strContains (toLowerS message) "quota" then
      ⟨.error ("Usage limit exceeded for " ++ description ++
        ". Please wait a moment before trying again."), r.calls, r.totalDelay⟩
    else
      ⟨.error ("Failed to " ++ description ++ ": " ++ message), r.calls, r.totalDelay⟩

/-! ## Data model (`types.ts`) and service response handling -/

/-- `QuestionContext.questionImage` (types.ts). -/
structure ImageM where
  data : String
  mimeType : String
  fileName : Option String
deriving DecidableEq

/-- `QuestionContext` (types.ts) as a runtime value: TypeScript declares
`title`/`description`/`totalMarks` non-optional, but a `JSON.parse` +
spread can leave them `undefined` at runtime, so they are `Option` here. -/
structure QuestionContextM where
  id : String
  title : Option String
  description : Option String
  totalMarks : Option Nat
  idealSolution : Option String
  questionImage : Option ImageM
deriving DecidableEq

/-- The object produced by `JSON.parse` of a question-extraction response:
the response schema declares `title`, `description`, `totalMarks`, each of
which may nevertheless be absent in the parsed JSON. -/
structure ParsedQuestion where
  title : Option String
  description : Option String
  totalMarks : Option Nat
deriving DecidableEq

/-- Response handling of `extractQuestionFromImage` (geminiService.ts lines
181-188): `if (response.text)` (undefined and `""` are falsy) parse it and
return `{ id: crypto.randomUUID(), ...data }` — the parsed fields are spread
unchanged next to a fresh id; otherwise `throw new Error("No data returned")`.
`freshId` stands for the `crypto.randomUUID()` value. -/
def extractQuestionResult (respText : Option String)
    (parse : String → ParsedQuestion) (freshId : String) :
    Except String QuestionContextM :=
  match respText with
  | none => .error "No data returned"
  | some s =>
    if s = "" then .error "No data returned"
    else
      let data := parse s
      .ok ⟨freshId, data.title, data.description, data.totalMarks, none, none⟩

/-- The merge performed by `handleScanQuestion` (QuestionSetup.tsx lines
38-56): the question first gets the image attached, then the extracted
details are merged with JS `||` fallbacks onto the updated question —
keeping the updated question's `id`. -/
def handleScanQuestionMerge (question : QuestionContextM) (img : ImageM)
    (extracted : QuestionContextM) : QuestionContextM :=
  let updatedQuestion := { question with questionImage := some img }
  { updatedQuestion with
      title := jsOrStr extracted.title updatedQuestion.title
      description := jsOrStr extracted.description updatedQuestion.description
      totalMarks := jsOrNat extracted.totalMarks updatedQuestion.totalMarks }

/-- The object produced by `JSON.parse` of a grading response, cast by
`as GradingResult` without any runtime validation: every field may be
absent. Numeric fields are modelled as integers. -/
structure ParsedGrading where
  score : Option Int
  maxScore : Option Int
  summary : Option String
  feedback : Option String
  mistakes : Option (List String)
  mistakeTypes : Option (List String)
  gradingConfidence : Option Int
  improvements : Option (List String)
deriving DecidableEq

/-- Response handling of `gradeLatexSubmission` (geminiService.ts lines
338-341): `if (response.text) return JSON.parse(response.text) as
GradingResult; throw new Error("Empty response from grading model")`.
The cast performs no field validation. -/
def gradeHandleResponse (respText : Option String)
    (parse : String → ParsedGrading) : Except String ParsedGrading :=
  match respText with
  | none => .error "Empty response from grading model"
  | some s =>
    if s = "" then .error "Empty response from grading model"
    else .ok (parse s)

/-! ## App orchestration (`App.tsx`) -/

/-- The slice of `App` state the grading flow touches: `gradingResult`,
`processing.isConverting`, `processing.isGrading`, `processing.error`. -/
structure AppStateM where
  gradingResult : Option ParsedGrading
  isConverting : Bool
  isGrading : Bool
  error : Option String
deriving DecidableEq

/-- Primitive state-affecting steps performed by `handleGrading` and the
debounced effect (App.tsx lines 96-107 and 121-127). `callGrade` marks the
issuing of a `gradeLatexSubmission` call; `logError` is `console.error`
(no state change). -/
inductive AppAction where
  | setGradingStart
  | callGrade (latex : String) (ctx : QuestionContextM)
  | setResult (r : ParsedGrading)
  | logError (msg : String)
  | setGradingDone
  | clearResult
deriving DecidableEq

/-- State effect of a single action. -/
def applyAction (s : AppStateM) : AppAction → AppStateM
  | .setGradingStart => { s with isGrading := true, error := none }
  | .callGrade _ _ => s
  | .setResult r => { s with gradingResult := some r }
  | .logError _ => s
  | .setGradingDone => { s with isGrading := false }
  | .clearResult => { s with gradingResult := none }

/-- Run a list of actions over the state. -/
def runApp (s : AppStateM) (as : List AppAction) : AppStateM :=
  as.foldl applyAction s

/-- The action trace of `handleGrading(latex, context)` (App.tsx lines
96-107): `if (!latex.trim()) return;` then set `isGrading`/clear error,
issue the call, store the result on success or only `console.error` on
failure, and finally reset `isGrading`. `outcome` is what the
`gradeLatexSubmission` call produced. -/
def handleGradingActions (latex : String) (ctx : QuestionContextM)
    (outcome : Except String ParsedGrading) : List AppAction :=
  if jsTrimS latex = "" then []
  else
    [.setGradingStart, .callGrade latex ctx] ++
    (match outcome with
     | .ok r => [.setResult r]
     | .error m => [.logError m]) ++
    [.setGradingDone]

/-- The debounced re-grading effect (App.tsx lines 121-127):
`if (debouncedLatex) handleGrading(debouncedLatex, activeQuestion); else
setGradingResult(null)` — a JS truthiness test, so only the empty string
takes the clearing branch. -/
def debounceEffectActions (debouncedLatex : String) (ctx : QuestionContextM)
    (outcome : Except String ParsedGrading) : List AppAction :=
  if debouncedLatex = "" then [.clearResult]
  else handleGradingActions debouncedLatex ctx outcome

/-! ## LaTeX preview body extraction (`LatexPreview`, LatexEditor.tsx lines 267-290)

The regex `/\\begin\s*\{document\}([\s\S]*?)\\end\s*\{document\}/i` is
modelled by hand: a case-insensitive `\begin`, greedy whitespace, a
case-insensitive `{document}`, then the lazily-matched captured body up to
the first following `\end\s*{document}`.  JS `String.match` finds the
leftmost position at which the whole pattern matches. -/

/-- Match `\begin\s*\{document\}` (case-insensitive) at the head of `s`,
returning the rest.  The greedy `\s*` is exact here because `{` is not a
whitespace character. -/
def matchBeginAt (s : List Char) : Option (List Char) :=
  match matchCI "\\begin".toList s with
  | none => none
  | some r => matchCI "{document}".toList (r.dropWhile jsSpace)

/-- Match `\end\s*\{document\}` (case-insensitive) at the head of `s`. -/
def matchEndAt (s : List Char) : Option (List Char) :=
  match matchCI "\\end".toList s with
  | none => none
  | some r => matchCI "{document}".toList (r.dropWhile jsSpace)

/-- The lazy captured group `([\s\S]*?)`: the shortest body after which the
end pattern matches; `none` when no end pattern occurs. -/
def findDocBody : List Char → Option (List Char)
  | [] => none
  | c :: cs =>
    if (matchEndAt (c :: cs)).isSome then some []
    else (findDocBody cs).map (c :: ·)

/-- Leftmost match of the whole body regex: at each position try the begin
pattern and, if it matches, a body followed by the end pattern; otherwise
(or if no end follows, as the JS engine would after exhausting backtracking)
move one character right.  Returns the captured body. -/
def findDocMatch : List Char → Option (List Char)
  | [] => none
  | c :: cs =>
    match matchBeginAt (c :: cs) with
    | some rest =>
      match findDocBody rest with
      | some body => some body
      | none => findDocMatch cs
    | none => findDocMatch cs

/-- First match of a token pattern anywhere in `s`: returns the text before
the match and the rest after it. -/
def findFirstTokenSplit (matchAt : List Char → Option (List Char)) :
    List Char → Option (List Char × List Char)
  | [] => match matchAt [] with
          | some r => some ([], r)
          | none => none
  | c :: cs =>
    match matchAt (c :: cs) with
    | some r => some ([], r)
    | none => (findFirstTokenSplit matchAt cs).map fun (p, r) => (c :: p, r)

/-- JS `s.split(tok)[1]`: the text between the first token match and the
second token match (or the end of the string); `none` when the token never
matches (split has a single element). -/
def jsSplitPart1 (matchAt : List Char → Option (List Char)) (s : List Char) :
    Option (List Char) :=
  (findFirstTokenSplit matchAt s).map fun (_, rest) =>
    match findFirstTokenSplit matchAt rest with
    | some (p, _) => p
    | none => rest

/-- JS `s.split(tok)[0]`: the text before the first token match (the whole
string when the token never matches). -/
def jsSplitPart0 (matchAt : List Char → Option (List Char)) (s : List Char) :
    List Char :=
  match findFirstTokenSplit matchAt s with
  | some (p, _) => p
  | none => s

/-- The fallback of `getRenderableContent` when the body regex produced no
(truthy) capture: if the text mentions `\documentclass` (case-sensitive
`includes`) and the begin pattern occurs, return the split-based body
(untrimmed) when it is non-empty; otherwise the whole text. -/
def docclassFallback (fullLatex : List Char) : List Char :=
  if containsSubL fullLatex "\\documentclass".toList then
    match jsSplitPart1 matchBeginAt fullLatex with
    | some part1 =>
      if part1 = [] then fullLatex
      else jsSplitPart0 matchEndAt part1
    | none => fullLatex
  else fullLatex

/-- `getRenderableContent` (LatexEditor.tsx lines 267-290): empty input
short-circuits, a truthy (non-empty) captured body is returned trimmed, and
everything else goes to the documentclass fallback. -/
def getRenderableContent (fullLatex : List Char) : List Char :=
  if fullLatex = [] then []
  else
    match findDocMatch fullLatex with
    | some body => if body = [] then docclassFallback fullLatex else jsTrim body
    | none => docclassFallback fullLatex

/-! ## Explicit math delimiters (`FormattedText.tsx` line 78)

`const delimiterRegex = /(\$\$[\s\S]*?\$\$|\\\[[\s\S]*?\\\]|\\\([\s\S]*?\\\)|(?:\$[^\$]+\$))/g`

Each alternative is modelled by hand; `String.split` on the regex (whose
single capture group is the whole match) yields the alternation of text
parts and matched delimiters. -/

/-- Lazy `[\s\S]*?` up to a closing literal: the body before the first
occurrence of `close`, and the rest after it. -/
def findCloseTok (close : List Char) : List Char → Option (List Char × List Char)
  | [] => none
  | c :: cs =>
    match matchExact close (c :: cs) with
    | some r => some ([], r)
    | none => (findCloseTok close cs).map fun (b, r) => (c :: b, r)

/-- Alternative `\$\$[\s\S]*?\$\$`. -/
def delimAlt1 (s : List Char) : Option (List Char × List Char) :=
  (matchExact ['$', '$'] s).bind fun r =>
    (findCloseTok ['$', '$'] r).map fun (b, rest) =>
      ('$' :: '$' :: b ++ ['$', '$'], rest)

/-- Alternative `\\\[[\s\S]*?\\\]`. -/
def delimAlt2 (s : List Char) : Option (List Char × List Char) :=
  (matchExact ['\\', '['] s).bind fun r =>
    (findCloseTok ['\\', ']'] r).map fun (b, rest) =>
      ('\\' :: '[' :: b ++ ['\\', ']'], rest)

/-- Alternative `\\\([\s\S]*?\\\)`. -/
def delimAlt3 (s : List Char) : Option (List Char × List Char) :=
  (matchExact ['\\', '('] s).bind fun r =>
    (findCloseTok ['\\', ')'] r).map fun (b, rest) =>
      ('\\' :: '(' :: b ++ ['\\', ')'], rest)

/-- Alternative `\$[^\$]+\$`: a dollar, a non-empty greedy run of
non-dollar characters, a dollar. -/
def delimAlt4 (s : List Char) : Option (List Char × List Char) :=
  match s with
  | '$' :: rest =>
    let body := rest.takeWhile (fun c => c ≠ '$')
    match rest.dropWhile (fun c => c ≠ '$') with
    | '$' :: r2 => if body = [] then none else some ('$' :: body ++ ['$'], r2)
    | _ => none
  | _ => none

/-- Try the four alternatives in the regex's order at the current position. -/
def tryDelimAt (s : List Char) : Option (List Char × List Char) :=
  (delimAlt1 s).orElse fun _ =>
    (delimAlt2 s).orElse fun _ =>
      (delimAlt3 s).orElse fun _ => delimAlt4 s

/-- Leftmost delimiter match: (text before, match, rest after). -/
def findFirstDelim : List Char → Option (List Char × List Char × List Char)
  | [] => none
  | c :: cs =>
    match tryDelimAt (c :: cs) with
    | some (m, rest) => some ([], m, rest)
    | none => (findFirstDelim cs).map fun (p, m, r) => (c :: p, m, r)

/-- Fueled form of `text.split(delimiterRegex)`: alternating text parts and
matches, as JS `split` with a capturing group returns them.  Every
delimiter match is at least two characters, so fuel `length + 1` is ample. -/
def delimSplitF : Nat → List Char → List (List Char)
  | 0, s => [s]
  | fuel + 1, s =>
    match findFirstDelim s with
    | none => [s]
    | some (p, m, rest) => if m = [] then [s] else p :: m :: delimSplitF fuel rest

/-- `text.split(delimiterRegex)` (FormattedText.tsx line 79). -/
def delimSplitList (s : List Char) : List (List Char) :=
  delimSplitF (s.length + 1) s

/-! ## Implicit-math heuristic (`TextWithImplicitMath`, FormattedText.tsx lines 24-70)

The regex

`/((?:\\[a-zA-Z]+(?:\{.*?\})*(?:\s*=\s*[\d\w\.\-]+)?)|(?:[a-zA-Z][\w_]*(?:\^[\w\{\}\-]+|_[\w\{\}\-]+)(?:\s*=\s*[\d\w\.\-]+)?)|(?:\b[a-z]\s*=\s*[\d\.\-]+)|...)/gi`
(alternatives 4 and 5 are the polynomial and arithmetic patterns below)

is modelled through a small backtracking regex engine over an explicit
syntax tree, with JS priority semantics: alternatives in order, greedy
quantifiers prefer longer matches, lazy ones shorter, and the leftmost
matching position wins.  `REmatch` is fueled; every recursion level either
descends into a subterm or consumes input, so the generous fuel used by
`regexSplitAll` is never exhausted on the inputs considered here. -/

/-- Regular-expression syntax tree. -/
inductive RE where
  | eps : RE
  | cls (p : Char → Bool) : RE
  | wb : RE
  | seq (a b : RE) : RE
  | alt (a b : RE) : RE
  | opt (lzy : Bool) (r : RE) : RE
  | star (lzy : Bool) (r : RE) : RE

/-- JS `\w` (with `_`). -/
def jsWordChar (c : Char) : Bool := c.isAlpha || c.isDigit || c = '_'

/-- JS `.` without the `s` flag: any character but a line terminator. -/
def jsDot (c : Char) : Bool :=
  !(c = '\n' || c = '\r' || c = ' ' || c = ' ')

/-- All ways a regex can match a prefix of `s`, in backtracking priority
order; each result is the previous character (for `\b`) and the remaining
input.  `fuel` bounds the recursion depth. -/
def REmatch : Nat → RE → Option Char → List Char → List (Option Char × List Char)
  | 0, _, _, _ => []
  | _ + 1, .eps, prev, s => [(prev, s)]
  | _ + 1, .cls p, _, s =>
    match s with
    | [] => []
    | c :: cs => if p c then [(some c, cs)] else []
  | _ + 1, .wb, prev, s =>
    let before := match prev with | none => false | some c => jsWordChar c
    let after := match s with | [] => false | c :: _ => jsWordChar c
    if before ≠ after then [(prev, s)] else []
  | fuel + 1, .seq a b, prev, s =>
    (REmatch fuel a prev s).flatMap fun (p, s') => REmatch fuel b p s'
  | fuel + 1, .alt a b, prev, s => REmatch fuel a prev s ++ REmatch fuel b prev s
  | fuel + 1, .opt lzy r, prev, s =>
    if lzy then (prev, s) :: REmatch fuel r prev s
    else REmatch fuel r prev s ++ [(prev, s)]
  | fuel + 1, .star lzy r, prev, s =>
    let go := (REmatch fuel r prev s).flatMap fun (p, s') =>
      if s'.length < s.length then REmatch fuel (.star lzy r) p s' else []
    if lzy then (prev, s) :: go else go ++ [(prev, s)]

/-- Structural size, used to choose an ample fuel. -/
def REsize : RE → Nat
  | .eps | .cls _ | .wb => 1
  | .seq a b | .alt a b => REsize a + REsize b + 1
  | .opt _ r | .star _ r => REsize r + 1

/-- Length of the highest-priority match of `re` at the head of `s`
(`none` when the regex does not match here). -/
def findREMatchLen (re : RE) (prev : Option Char) (s : List Char) : Option Nat :=
  match REmatch ((REsize re + 1) * (s.length + 2)) re prev s with
  | [] => none
  | (_, rest) :: _ => some (s.length - rest.length)

/-- Leftmost match: start index and length. -/
def findLeftmostIdx (re : RE) : Option Char → List Char → Option (Nat × Nat)
  | prev, s =>
    match findREMatchLen re prev s with
    | some len => some (0, len)
    | none =>
      match s with
      | [] => none
      | c :: cs => (findLeftmostIdx re (some c) cs).map fun (i, l) => (i + 1, l)

/-- Fueled repeated split (JS `split` with `/g` and one capture group):
text, match, text, match, ..., text. -/
def regexSplitF (re : RE) : Nat → Option Char → List Char → List (List Char)
  | 0, _, s => [s]
  | fuel + 1, prev, s =>
    match s with
    | [] => [[]]
    | _ =>
      match findLeftmostIdx re prev s with
      | none => [s]
      | some (i, len) =>
        if len = 0 then [s]
        else
          s.take i :: (s.drop i).take len ::
            regexSplitF re fuel ((s.take (i + len)).getLast?) (s.drop (i + len))

/-- JS `content.split(implicitMathRegex)`-style split. -/
def regexSplitAll (re : RE) (s : List Char) : List (List Char) :=
  regexSplitF re (s.length + 1) none s

/-- Literal character. -/
def REchar (c : Char) : RE := .cls (fun x => x = c)

/-- One or more. -/
def REplus (r : RE) : RE := .seq r (.star false r)

/-- `(?:\s*=\s*[\d\w\.\-]+)?` — the optional `= value` tail of alternatives
1 and 2. -/
def REeqTail : RE :=
  .opt false (.seq (.star false (.cls jsSpace)) (.seq (REchar '=')
    (.seq (.star false (.cls jsSpace))
      (REplus (.cls fun c => c.isDigit || jsWordChar c || c = '.' || c = '-')))))

/-- Alternative 1: `\\[a-zA-Z]+(?:\{.*?\})*(?:\s*=\s*[\d\w\.\-]+)?`. -/
def implicitAlt1 : RE :=
  .seq (REchar '\\') (.seq (REplus (.cls Char.isAlpha))
    (.seq (.star false (.seq (REchar '{')
        (.seq (.star true (.cls jsDot)) (REchar '}'))))
      REeqTail))

/-- Alternative 2: `[a-zA-Z][\w_]*(?:\^[\w\{\}\-]+|_[\w\{\}\-]+)(?:\s*=\s*[\d\w\.\-]+)?`. -/
def implicitAlt2 : RE :=
  let supSub := .cls fun c => jsWordChar c || c = '{' || c = '}' || c = '-'
  .seq (.cls Char.isAlpha) (.seq (.star false (.cls jsWordChar))
    (.seq (.alt (.seq (REchar '^') (REplus supSub))
                (.seq (REchar '_') (REplus supSub)))
      REeqTail))

/-- Alternative 3: `\b[a-z]\s*=\s*[\d\.\-]+` (the `i` flag makes `[a-z]`
any letter). -/
def implicitAlt3 : RE :=
  .seq .wb (.seq (.cls Char.isAlpha) (.seq (.star false (.cls jsSpace))
    (.seq (REchar '=') (.seq (.star false (.cls jsSpace))
      (REplus (.cls fun c => c.isDigit || c = '.' || c = '-'))))))

/-- Alternative 4: `(?:[\d]*[a-z]\^2[\s\+\-\d]*[a-z][\s\+\-\d]*)(?:\s*=\s*0)?`. -/
def implicitAlt4 : RE :=
  let spd := .cls fun c => jsSpace c || c = '+' || c = '-' || c.isDigit
  .seq (.seq (.star false (.cls Char.isDigit)) (.seq (.cls Char.isAlpha)
      (.seq (REchar '^') (.seq (REchar '2')
        (.seq (.star false spd) (.seq (.cls Char.isAlpha) (.star false spd)))))))
    (.opt false (.seq (.star false (.cls jsSpace)) (.seq (REchar '=')
      (.seq (.star false (.cls jsSpace)) (REchar '0')))))

/-- Alternative 5: `\b[\d\.]+\s*[\+\-\*\/]\s*[\d\.]+\s*=\s*[\d\.]+`. -/
def implicitAlt5 : RE :=
  let num := REplus (.cls fun c => c.isDigit || c = '.')
  .seq .wb (.seq num (.seq (.star false (.cls jsSpace))
    (.seq (.cls fun c => c = '+' || c = '-' || c = '*' || c = '/')
      (.seq (.star false (.cls jsSpace)) (.seq num
        (.seq (.star false (.cls jsSpace)) (.seq (REchar '=')
          (.seq (.star false (.cls jsSpace)) num))))))))

/-- `implicitMathRegex` (FormattedText.tsx line 31). -/
def implicitMathRE : RE :=
  .alt implicitAlt1 (.alt implicitAlt2 (.alt implicitAlt3
    (.alt implicitAlt4 implicitAlt5)))

/-! ## Rendering policy (`MathRenderer`, `TextWithImplicitMath`, `FormattedText`) -/

/-- JS `part.slice(1, -1)` on char lists. -/
def slice1 (l : List Char) : List Char := (l.drop 1).dropLast

/-- JS `part.slice(2, -2)` on char lists. -/
def slice2 (l : List Char) : List Char := (l.drop 2).dropLast.dropLast

/-- What `MathRenderer` (FormattedText.tsx lines 4-21) puts in the DOM:
a code-styled literal when KaTeX is absent, the typeset HTML on success,
the plain literal text when a heuristic guess fails, or a red code-styled
error indicator (which shows only the offending source) when an
explicitly-delimited token fails. -/
inductive MathOut where
  | noKatex (content : List Char)
  | rendered (display : Bool)
  | literalText (content : List Char)
  | errorCode (content : List Char)
deriving DecidableEq

/-- `MathRenderer`: `render` stands for `window.katex.renderToString` with
`throwOnError: true` (`.error e` models the thrown exception's message). -/
def MathRenderer (katexAvailable : Bool)
    (render : List Char → Bool → Except (List Char) Unit)
    (content : List Char) (displayMode fallback : Bool) : MathOut :=
  if katexAvailable = false then .noKatex content
  else
    match render content displayMode with
    | .ok _ => .rendered displayMode
    | .error _ => if fallback then .literalText content else .errorCode content

/-- The source strings `MathRenderer` places in the DOM as text. -/
def mathOutTexts : MathOut → List (List Char)
  | .noKatex c => [c]
  | .rendered _ => []
  | .literalText c => [c]
  | .errorCode c => [c]

/-- One rendering decision of the FormattedText pipeline: either plain text
or a call into the math engine (`content`, `displayMode`, `fallback`). -/
inductive RenderUnit where
  | plain (t : List Char) : RenderUnit
  | mathCall (content : List Char) (display fallback : Bool) : RenderUnit
deriving DecidableEq

/-- `TextWithImplicitMath` (FormattedText.tsx lines 24-70): split on the
implicit-math regex, then for each piece decide between plain text and a
fallback math call, peeling trailing `[.,:;]+` punctuation off pieces sent
to the engine. -/
def implicitUnits (content : List Char) : List RenderUnit :=
  (regexSplitAll implicitMathRE content).flatMap fun sub =>
    let trimmed := jsTrim sub
    if trimmed = [] then [.plain sub]
    else
      let hasMathChar := trimmed.any fun c => c = '=' || c = '^' || c = '_' || c = '\\'
      let isEnglish := trimmed.all fun c => c.isAlpha || jsSpace c || c = '.' || c = ','
      if hasMathChar && !isEnglish && decide (1 < trimmed.length) then
        let punct := (sub.reverse.takeWhile fun c =>
          c = '.' || c = ',' || c = ':' || c = ';').reverse
        let cleanContent := sub.take (sub.length - punct.length)
        .mathCall cleanContent false true ::
          (if punct = [] then [] else [.plain punct])
      else [.plain sub]

/-- The per-part classification of `FormattedText` (lines 83-100): parts
whose text starts with an opening delimiter are treated as math (the outer
delimiters sliced off), everything else goes through the implicit-math
pass. -/
def classifyPart (part : List Char) : List RenderUnit :=
  let isDisplayMath := startsW ['$', '$'] part || startsW ['\\', '['] part
  let isInlineMath := startsW ['$'] part || startsW ['\\', '('] part
  if isDisplayMath || isInlineMath then
    let cleanContent :=
      if startsW ['$', '$'] part then slice2 part
      else if startsW ['\\', '['] part then slice2 part
      else if startsW ['\\', '('] part then slice2 part
      else if startsW ['$'] part then slice1 part
      else part
    [.mathCall cleanContent isDisplayMath false]
  else implicitUnits part

/-- `FormattedText` (lines 73-103): `if (!text) return null`, split on the
explicit delimiter regex, classify every part. -/
def formattedUnits (text : List Char) : List RenderUnit :=
  if text = [] then []
  else (delimSplitList text).flatMap classifyPart

/-- The math-engine invocations a unit list produces, in order:
`(content, displayMode, fallback)`. -/
def mathCallsOf (units : List RenderUnit) : List (List Char × Bool × Bool) :=
  units.filterMap fun u =>
    match u with
    | .mathCall c d f => some (c, d, f)
    | .plain _ => none

/-! ## Preview `MathBlock` (LatexEditor.tsx lines 192-263) -/

/-- `MathBlock`'s delimiter stripping: trim, then remove a `$$ $$`, `\[ \]`
or single `$ $` wrapper (environments are kept for KaTeX). -/
def stripMathDelims (content : List Char) : List Char :=
  let c := jsTrim content
  if startsW ['$', '$'] c && endsW ['$', '$'] c then slice2 c
  else if startsW ['\\', '['] c && endsW ['\\', ']'] c then slice2 c
  else if startsW ['$'] c && endsW ['$'] c && !startsW ['$', '$'] c then slice1 c
  else c

/-- The error card `MathBlock` renders when KaTeX throws (lines 242-259):
header and help text switch on whether the message mentions "quirks mode";
the offending source is always shown; the raw reason only when the failure
is not the quirks-mode one. -/
structure MathBlockError where
  quirksHeader : Bool
  quirksHelpShown : Bool
  sourceShown : List Char
  reasonShown : Option (List Char)
deriving DecidableEq

/-- `MathBlock`: `none` when nothing is rendered as an error (success, or
KaTeX absent — the span stays empty). -/
def MathBlock (katexAvailable : Bool)
    (render : List Char → Bool → Except (List Char) Unit)
    (content : List Char) (displayMode : Bool) : Option MathBlockError :=
  if katexAvailable = false then none
  else
    match render (stripMathDelims content) displayMode with
    | .ok _ => none
    | .error e =>
      let isQuirksMode := containsSubL e "quirks mode".toList
      some ⟨isQuirksMode, isQuirksMode, content,
        if isQuirksMode then none else some e⟩

/-! ## Editor autocomplete (`applySuggestion`, LatexEditor.tsx lines 89-108) -/

/-- JS `String.lastIndexOf('\\')` (`none` = `-1`). -/
def lastIndexOfBS : List Char → Option Nat
  | [] => none
  | c :: cs =>
    match lastIndexOfBS cs with
    | some i => some (i + 1)
    | none => if c = '\\' then some 0 else none

/-- `applySuggestion(cmd)` with the caret at `start`: find the last
backslash in the text before the caret; replace from it to the caret with
`cmd` and put the caret right after the insertion.  `none` models the
silent no-op when there is no backslash. -/
def applySuggestion (value : List Char) (start : Nat) (cmd : List Char) :
    Option (List Char × Nat) :=
  let textBefore := value.take start
  match lastIndexOfBS textBefore with
  | none => none
  | some i => some (value.take i ++ cmd ++ value.drop start, i + cmd.length)

/-- Modelled from the spec: the index of the last *unescaped* backslash —
"a backslash that is itself escaped, i.e. the second character of a `\\`
pair, is not chosen as the replacement start".  Used only to compare the
code's behaviour with the claimed one. -/
def lastUnescapedAux : List Char → Nat → Bool → Option Nat → Option Nat
  | [], _, _, acc => acc
  | c :: cs, i, prevUnescapedBS, acc =>
    if c = '\\' then
      if prevUnescapedBS then lastUnescapedAux cs (i + 1) false acc
      else lastUnescapedAux cs (i + 1) true (some i)
    else lastUnescapedAux cs (i + 1) false acc

/-- Modelled from the spec: last unescaped backslash of the text. -/
def lastUnescapedBS (l : List Char) : Option Nat := lastUnescapedAux l 0 false none

/-! # Theorems -/

/-! ## C1 — retry wrapper -/

theorem retryLoop_ok {T : Type} (op : Nat → CallOutcome T) (a d : Nat) (v : T)
    (h : op a = .ok v) : retryLoop op a d = ⟨.ok v, 1, 0⟩ := by
  rw [retryLoop, h]

theorem retryLoop_err_retry {T : Type} (op : Nat → CallOutcome T) (a d : Nat)
    (e : ApiError) (h : op a = .err e) (ha : a < RETRY_CONFIG.maxRetries)
    (hr : retriable e = true) :
    retryLoop op a d =
      ⟨(retryLoop op (a + 1) (d * RETRY_CONFIG.backoffFactor)).outcome,
       (retryLoop op (a + 1) (d * RETRY_CONFIG.backoffFactor)).calls + 1,
       d + (retryLoop op (a + 1) (d * RETRY_CONFIG.backoffFactor)).totalDelay⟩ := by
  rw [retryLoop]
  simp [h, ha, hr]

theorem retryLoop_err_stop {T : Type} (op : Nat → CallOutcome T) (a d : Nat)
    (e : ApiError) (h : op a = .err e)
    (hs : ¬(a < RETRY_CONFIG.maxRetries ∧ retriable e = true)) :
    retryLoop op a d = ⟨.error e, 1, 0⟩ := by
  rw [retryLoop]
  simp [h, hs]

/-- C1: an operation whose first `N ≤ 3` invocations fail with retriable
(quota / transient-server) errors and whose invocation `N` succeeds is
invoked `N + 1` times and the wrapper returns its value after a cumulative
delay of `2000·(2^N − 1)` ms (delays 2000, 4000, ... doubling); an
operation whose first invocation fails with a non-retriable error is
invoked exactly once with no delay and the wrapper fails; an operation
failing retriably on every attempt is invoked exactly 4 times. -/
theorem withRetry_retry_profile {T : Type} (op : Nat → CallOutcome T) (desc : String) :
    (∀ (v : T) (N : Nat), N ≤ 3 →
      (∀ i, i < N → ∃ e, op i = CallOutcome.err e ∧ retriable e = true) →
      op N = CallOutcome.ok v →
      withRetry op desc = ⟨Except.ok v, N + 1, 2000 * (2 ^ N - 1)⟩) ∧
    (∀ e, op 0 = CallOutcome.err e → retriable e = false →
      (withRetry op desc).calls = 1 ∧ (withRetry op desc).totalDelay = 0 ∧
      ∃ msg, (withRetry op desc).result = Except.error msg) ∧
    ((∀ i, i ≤ 3 → ∃ e, op i = CallOutcome.err e ∧ retriable e = true) →
      (withRetry op desc).calls = 4 ∧ (withRetry op desc).totalDelay = 14000) := by
  refine ⟨?_, ?_, ?_⟩
  · intro v N hN hfail hok
    interval_cases N
    · rw [withRetry, retryLoop_ok op 0 _ v hok]
      simp [RETRY_CONFIG]
    · obtain ⟨e0, h0, hr0⟩ := hfail 0 (by norm_num)
      rw [withRetry, retryLoop_err_retry op 0 _ e0 h0 (by decide) hr0,
        retryLoop_ok op 1 _ v hok]
      simp [RETRY_CONFIG]
    · obtain ⟨e0, h0, hr0⟩ := hfail 0 (by norm_num)
      obtain ⟨e1, h1, hr1⟩ := hfail 1 (by norm_num)
      rw [withRetry, retryLoop_err_retry op 0 _ e0 h0 (by decide) hr0,
        retryLoop_err_retry op 1 _ e1 h1 (by decide) hr1,
        retryLoop_ok op 2 _ v hok]
      simp [RETRY_CONFIG]
    · obtain ⟨e0, h0, hr0⟩ := hfail 0 (by norm_num)
      obtain ⟨e1, h1, hr1⟩ := hfail 1 (by norm_num)
      obtain ⟨e2, h2, hr2⟩ := hfail 2 (by norm_num)
      rw [withRetry, retryLoop_err_retry op 0 _ e0 h0 (by decide) hr0,
        retryLoop_err_retry op 1 _ e1 h1 (by decide) hr1,
        retryLoop_err_retry op 2 _ e2 h2 (by decide) hr2,
        retryLoop_ok op 3 _ v hok]
      simp [RETRY_CONFIG]
  · intro e he hnr
    rw [withRetry, retryLoop_err_stop op 0 _ e he (by simp [hnr])]
    refine ⟨?_, ?_, ?_⟩ <;> simp only [] <;> split <;> split <;> simp
  · intro hfail
    obtain ⟨e0, h0, hr0⟩ := hfail 0 (by norm_num)
    obtain ⟨e1, h1, hr1⟩ := hfail 1 (by norm_num)
    obtain ⟨e2, h2, hr2⟩ := hfail 2 (by norm_num)
    obtain ⟨e3, h3, hr3⟩ := hfail 3 (by norm_num)
    rw [withRetry, retryLoop_err_retry op 0 _ e0 h0 (by decide) hr0,
      retryLoop_err_retry op 1 _ e1 h1 (by decide) hr1,
      retryLoop_err_retry op 2 _ e2 h2 (by decide) hr2,
      retryLoop_err_stop op 3 _ e3 h3 (fun hc => absurd hc.1 (by decide))]
    constructor <;> simp only [] <;> split <;> split <;> norm_num [RETRY_CONFIG]

/-- A concrete operation failing twice with a 429 quota error, then
succeeding. -/
def opQuota2 : Nat → CallOutcome Nat :=
  fun i => if i < 2 then .err ⟨some 429, "quota"⟩ else .ok 7

/-- Witness for C1: two 429 failures then success give 3 calls, value 7 and
cumulative delay 6000 ms = 2000·(2²−1). -/
theorem withRetry_retry_profile_witness :
    withRetry opQuota2 "grade submission" = ⟨Except.ok 7, 3, 6000⟩ := by
  have h := (withRetry_retry_profile opQuota2 "grade submission").1 7 2 (by norm_num)
    (fun i hi => ⟨⟨some 429, "quota"⟩, by interval_cases i <;> rfl, by decide⟩)
    (by rfl)
  simpa using h

/-! ## C2 — question extraction: no client-side totalMarks default -/

/-- A parse producing the spec scenario's object
`{title: "", description: "X", totalMarks: undefined}`. -/
def parseScenarioC2 : String → ParsedQuestion := fun _ => ⟨some "", some "X", none⟩

/-- C2 counterexample: on the spec's scenario response the client does
*not* substitute the default `totalMarks = 10` — the returned
`QuestionContext` carries `totalMarks` absent (`undefined`); the only
place the default 10 appears is the prompt sent to the model. -/
theorem extractQuestion_no_default_counterexample :
    extractQuestionResult (some "\x7b\x7d") parseScenarioC2 "uuid-1" =
      Except.ok ⟨"uuid-1", some "", some "X", none, none, none⟩ ∧
    extractQuestionResult (some "\x7b\x7d") parseScenarioC2 "uuid-1" ≠
      Except.ok ⟨"uuid-1", some "", some "X", some 10, none, none⟩ := by
  refine ⟨rfl, ?_⟩
  simp [extractQuestionResult, parseScenarioC2]

/-- C2 (amended): on a successful extraction the client attaches the
freshly generated identifier and passes the parsed fields through
unchanged — an absent `totalMarks` stays absent rather than defaulting to
10 — and the surrounding `handleScanQuestion` merge keeps the provided
description but falls back to the *previous* question's `totalMarks` (and
keeps the previous question's id, discarding the fresh one). -/
theorem extractQuestion_passthrough (resp : String) (hresp : resp ≠ "")
    (parse : String → ParsedQuestion) (fid d : String) (hd : d ≠ "")
    (prev : QuestionContextM) (img : ImageM)
    (hparse : parse resp = ⟨some "", some d, none⟩) :
    extractQuestionResult (some resp) parse fid =
      Except.ok ⟨fid, some "", some d, none, none, none⟩ ∧
    (handleScanQuestionMerge prev img
        ⟨fid, some "", some d, none, none, none⟩).totalMarks = prev.totalMarks ∧
    (handleScanQuestionMerge prev img
        ⟨fid, some "", some d, none, none, none⟩).description = some d ∧
    (handleScanQuestionMerge prev img
        ⟨fid, some "", some d, none, none, none⟩).id = prev.id := by
  refine ⟨?_, ?_, ?_, ?_⟩
  · simp [extractQuestionResult, hresp, hparse]
  · simp [handleScanQuestionMerge, jsOrNat]
  · simp [handleScanQuestionMerge, jsOrStr, hd]
  · simp [handleScanQuestionMerge]

/-- Witness for C2's amended theorem at a concrete response and previous
question. -/
theorem extractQuestion_passthrough_witness :
    extractQuestionResult (some "\x7b\x7d") parseScenarioC2 "uuid-1" =
      Except.ok ⟨"uuid-1", some "", some "X", none, none, none⟩ ∧
    (handleScanQuestionMerge ⟨"custom", some "New Assignment", some "Solve",
        some 100, none, none⟩ ⟨"AAAA", "image/png", some "q.png"⟩
        ⟨"uuid-1", some "", some "X", none, none, none⟩).totalMarks = some 100 := by
  have h := extractQuestion_passthrough "\x7b\x7d" (by decide) parseScenarioC2
    "uuid-1" "X" (by decide)
    ⟨"custom", some "New Assignment", some "Solve", some 100, none, none⟩
    ⟨"AAAA", "image/png", some "q.png"⟩ (by rfl)
  exact ⟨h.1, h.2.1⟩

/-! ## C3 — grading response: missing mistakeTypes is not an error -/

/-- A parse producing valid JSON with every schema field absent (in
particular no `mistakeTypes`). -/
def parseEmptyGrading : String → ParsedGrading :=
  fun _ => ⟨none, none, none, none, none, none, none, none⟩

/-- C3 counterexample: a response whose text parses as valid JSON but
lacks `mistakeTypes` is returned as a success with the field absent —
`gradeLatexSubmission` does not fail; the `as GradingResult` cast performs
no runtime validation. -/
theorem gradeMissingMistakeTypes_counterexample :
    gradeHandleResponse (some "\x7b\x7d") parseEmptyGrading =
      Except.ok ⟨none, none, none, none, none, none, none, none⟩ ∧
    (⟨none, none, none, none, none, none, none, none⟩ : ParsedGrading).mistakeTypes
      = none := ⟨rfl, rfl⟩

/-- C3 (amended): `gradeLatexSubmission`'s response handling fails exactly
when the response text is absent or empty; any non-empty text is parsed
and returned as-is, with absent fields (such as `mistakeTypes`) passed
through rather than causing an error or being defaulted. -/
theorem gradeHandleResponse_validation (parse : String → ParsedGrading) :
    (∀ s : String, s ≠ "" →
       gradeHandleResponse (some s) parse = Except.ok (parse s)) ∧
    gradeHandleResponse none parse =
      Except.error "Empty response from grading model" ∧
    gradeHandleResponse (some "") parse =
      Except.error "Empty response from grading model" := by
  refine ⟨fun s hs => ?_, rfl, rfl⟩
  simp [gradeHandleResponse, hs]

/-- Witness for C3's amended theorem. -/
theorem gradeHandleResponse_validation_witness :
    gradeHandleResponse (some "\x7b\x7d") parseEmptyGrading =
      Except.ok (parseEmptyGrading "\x7b\x7d") ∧
    gradeHandleResponse none parseEmptyGrading =
      Except.error "Empty response from grading model" := by
  exact ⟨(gradeHandleResponse_validation parseEmptyGrading).1 "\x7b\x7d" (by decide),
    (gradeHandleResponse_validation parseEmptyGrading).2.1⟩

/-! ## C4 — grading failures are only logged -/

/-- C4: when a grading invocation issued by `handleGrading` fails, the
failure is only logged (`console.error`): the previous grading result is
untouched (no `setGradingResult` occurs), and the shared error slot does
not receive the failure message (it is in fact left cleared by the
pre-call `setProcessing`). -/
theorem handleGrading_failure_only_logged (latex : String) (ctx : QuestionContextM)
    (m : String) (s : AppStateM) (hl : jsTrimS latex ≠ "") :
    (runApp s (handleGradingActions latex ctx (.error m))).gradingResult
        = s.gradingResult ∧
    (runApp s (handleGradingActions latex ctx (.error m))).error ≠ some m ∧
    (∀ r, AppAction.setResult r ∉ handleGradingActions latex ctx (.error m)) ∧
    AppAction.logError m ∈ handleGradingActions latex ctx (.error m) ∧
    (runApp s (handleGradingActions latex ctx (.error m))).isGrading = false := by
  simp [handleGradingActions, hl, runApp, applyAction]

/-- Witness for C4 at a concrete state, source and failure message. -/
theorem handleGrading_failure_only_logged_witness :
    (runApp ⟨some ⟨some 5, some 10, none, none, none, none, none, none⟩,
        false, false, some "old error"⟩
      (handleGradingActions "x=1" ⟨"custom", some "T", some "D", some 100, none, none⟩
        (.error "boom"))).gradingResult
      = some ⟨some 5, some 10, none, none, none, none, none, none⟩ ∧
    (runApp ⟨some ⟨some 5, some 10, none, none, none, none, none, none⟩,
        false, false, some "old error"⟩
      (handleGradingActions "x=1" ⟨"custom", some "T", some "D", some 100, none, none⟩
        (.error "boom"))).error ≠ some "boom" := by
  have h := handleGrading_failure_only_logged "x=1"
    ⟨"custom", some "T", some "D", some 100, none, none⟩ "boom"
    ⟨some ⟨some 5, some 10, none, none, none, none, none, none⟩,
      false, false, some "old error"⟩ (by decide)
  exact ⟨h.1, h.2.1⟩

/-! ## C10 — whitespace-only debounced source -/

/-- C10: a non-empty but whitespace-only debounced source makes the
grading entry point return before doing anything: no grading call is
issued, `isGrading` is never set, and the state (result and error slot
included) is completely unchanged; an entirely empty debounced source
instead clears the grading result to `null` and touches nothing else. -/
theorem debounce_whitespace_noop (ws : String) (ctx : QuestionContextM)
    (outcome : Except String ParsedGrading) (s : AppStateM)
    (hne : ws ≠ "") (hws : jsTrimS ws = "") :
    debounceEffectActions ws ctx outcome = [] ∧
    runApp s (debounceEffectActions ws ctx outcome) = s ∧
    (∀ l c, AppAction.callGrade l c ∉ debounceEffectActions ws ctx outcome) ∧
    AppAction.setGradingStart ∉ debounceEffectActions ws ctx outcome ∧
    runApp s (debounceEffectActions "" ctx outcome) =
      { s with gradingResult := none } := by
  refine ⟨?_, ?_, ?_, ?_, ?_⟩ <;>
    simp [debounceEffectActions, handleGradingActions, hne, hws, runApp, applyAction]

/-- Witness for C10: a single-space source leaves a populated state — its
result, error slot and flags — untouched, while an empty source clears
only the result. -/
theorem debounce_whitespace_noop_witness :
    runApp ⟨some ⟨some 5, some 10, none, none, none, none, none, none⟩,
        false, false, some "previous error"⟩
      (debounceEffectActions " " ⟨"custom", some "T", some "D", some 100, none, none⟩
        (.ok ⟨some 1, some 1, none, none, none, none, none, none⟩)) =
      ⟨some ⟨some 5, some 10, none, none, none, none, none, none⟩,
        false, false, some "previous error"⟩ ∧
    runApp ⟨some ⟨some 5, some 10, none, none, none, none, none, none⟩,
        false, false, some "previous error"⟩
      (debounceEffectActions "" ⟨"custom", some "T", some "D", some 100, none, none⟩
        (.ok ⟨some 1, some 1, none, none, none, none, none, none⟩)) =
      ⟨none, false, false, some "previous error"⟩ := by
  have h := debounce_whitespace_noop " "
    ⟨"custom", some "T", some "D", some 100, none, none⟩
    (.ok ⟨some 1, some 1, none, none, none, none, none, none⟩)
    ⟨some ⟨some 5, some 10, none, none, none, none, none, none⟩,
      false, false, some "previous error"⟩ (by decide) (by decide)
  exact ⟨h.2.1, h.2.2.2.2⟩

/-! ## C5 — preview body extraction -/

theorem matchBeginAt_literal (r : List Char) :
    matchBeginAt ("\\begin{document}".toList ++ r) = some r := rfl

theorem matchEndAt_literal (r : List Char) :
    matchEndAt ("\\end{document}".toList ++ r) = some r := rfl

theorem findDocBody_eq (body tail r : List Char)
    (hbody : ∀ j < body.length, matchEndAt (body.drop j ++ tail) = none)
    (hend : matchEndAt tail = some r) :
    findDocBody (body ++ tail) = some body := by
  induction body with
  | nil =>
    match tail, hend with
    | c :: cs, hend => simp [findDocBody, hend]
  | cons c b ih =>
    have h0 := hbody 0 (by simp)
    simp only [List.drop_zero, List.cons_append] at h0
    have ihh : findDocBody (b ++ tail) = some b := by
      refine ih fun j hj => ?_
      have := hbody (j + 1) (by simpa using Nat.succ_lt_succ hj)
      simpa using this
    simp [findDocBody, h0, ihh]

theorem findDocMatch_eq (pre rest body r : List Char)
    (hpre : ∀ i < pre.length, matchBeginAt (pre.drop i ++ rest) = none)
    (h0 : matchBeginAt rest = some r) (hbody : findDocBody r = some body) :
    findDocMatch (pre ++ rest) = some body := by
  induction pre with
  | nil =>
    have hne : rest ≠ [] := by
      intro h
      rw [h] at h0
      simp [matchBeginAt, matchCI] at h0
    match rest, hne, h0 with
    | c :: cs, _, h0 => simp [findDocMatch, h0, hbody]
  | cons c p ih =>
    have h0' := hpre 0 (by simp)
    simp only [List.drop_zero, List.cons_append] at h0'
    have ihh := ih fun i hi => by
      have := hpre (i + 1) (by simpa using Nat.succ_lt_succ hi)
      simpa using this
    simp [findDocMatch, h0', ihh]

/-- C5 counterexample: the input `\begin{document}\end{document}` contains
the document pair with empty inner text, whose trim is `""`; but because
the captured group is falsy the extractor falls through and (there being no
`\documentclass`) returns the whole text, not the trimmed inner text. -/
theorem getRenderableContent_empty_body_cex :
    getRenderableContent "\\begin{document}\\end{document}".toList
      = "\\begin{document}\\end{document}".toList ∧
    "\\begin{document}\\end{document}".toList ≠ ([] : List Char) := by
  constructor <;> decide

/-- C5 (amended): for input decomposed as
`pre ++ \begin{document} ++ body ++ \end{document} ++ post` where no
begin-pattern match starts inside `pre` and no end-pattern match starts
inside `body` (so the shown pair is the first match) and the inner text
`body` is non-empty, the extractor returns exactly `body` trimmed.  (When
`body` is empty the extractor instead falls back, as the counterexample
shows.) -/
theorem getRenderableContent_inner (pre body post : List Char)
    (hpre : ∀ i < pre.length,
      matchBeginAt (pre.drop i ++ ("\\begin{document}".toList ++
        (body ++ ("\\end{document}".toList ++ post)))) = none)
    (hbody : ∀ j < body.length,
      matchEndAt (body.drop j ++ ("\\end{document}".toList ++ post)) = none)
    (hne : body ≠ []) :
    getRenderableContent (pre ++ ("\\begin{document}".toList ++
      (body ++ ("\\end{document}".toList ++ post)))) = jsTrim body := by
  have hfind : findDocMatch (pre ++ ("\\begin{document}".toList ++
      (body ++ ("\\end{document}".toList ++ post)))) = some body :=
    findDocMatch_eq pre _ body (body ++ ("\\end{document}".toList ++ post)) hpre
      (matchBeginAt_literal _)
      (findDocBody_eq body _ post hbody (matchEndAt_literal _))
  have hfull : pre ++ ("\\begin{document}".toList ++
      (body ++ ("\\end{document}".toList ++ post))) ≠ [] := by simp
  rw [getRenderableContent, if_neg hfull, hfind]
  simp [hne]

/-- Witness for C5's amended theorem on a concrete document. -/
theorem getRenderableContent_inner_witness :
    getRenderableContent ("x ".toList ++ ("\\begin{document}".toList ++
      (" y $a$ ".toList ++ ("\\end{document}".toList ++ " z".toList))))
      = "y $a$".toList := by
  have h := getRenderableContent_inner "x ".toList " y $a$ ".toList " z".toList
    (by decide) (by decide) (by decide)
  rw [h]
  decide

/-! ## C6 — explicit `$...$` stripping -/

theorem takeWhile_no_dollar (s : List Char) (hnd : ∀ c ∈ s, c ≠ '$') :
    (s ++ ['$']).takeWhile (fun c => !decide (c = '$')) = s ∧
    (s ++ ['$']).dropWhile (fun c => !decide (c = '$')) = ['$'] := by
  induction s with
  | nil => simp
  | cons c cs ih =>
    have hc : c ≠ '$' := hnd c (by simp)
    have h := ih fun x hx => hnd x (by simp [hx])
    simp [List.takeWhile_cons, List.dropWhile_cons, hc, h.1, h.2]

theorem tryDelimAt_wrap (c : Char) (cs : List Char) (hc : c ≠ '$')
    (hnd : ∀ x ∈ cs, x ≠ '$') :
    tryDelimAt ('$' :: c :: (cs ++ ['$'])) =
      some ('$' :: c :: (cs ++ ['$']), []) := by
  have ht := takeWhile_no_dollar (c :: cs) (by
    intro x hx
    rcases List.mem_cons.mp hx with h | h
    · exact h ▸ hc
    · exact hnd x h)
  simp only [List.cons_append] at ht
  have h1 : delimAlt1 ('$' :: c :: (cs ++ ['$'])) = none := by
    simp [delimAlt1, matchExact, hc]
  have h2 : delimAlt2 ('$' :: c :: (cs ++ ['$'])) = none := by
    simp [delimAlt2, matchExact]
  have h3 : delimAlt3 ('$' :: c :: (cs ++ ['$'])) = none := by
    simp [delimAlt3, matchExact]
  have h4 : delimAlt4 ('$' :: c :: (cs ++ ['$'])) =
      some ('$' :: c :: (cs ++ ['$']), []) := by
    simp [delimAlt4, ht.1, ht.2, hc]
  simp [tryDelimAt, h1, h2, h3, h4, Option.orElse]

theorem implicitUnits_nil : implicitUnits [] = [.plain []] := rfl

theorem delimSplitF_succ (fuel : Nat) (s p m rest : List Char)
    (h : findFirstDelim s = some (p, m, rest)) (hm : m ≠ []) :
    delimSplitF (fuel + 1) s = p :: m :: delimSplitF fuel rest := by
  rw [delimSplitF, h]
  simp [hm]

theorem delimSplitF_nil (fuel : Nat) : delimSplitF fuel [] = [[]] := by
  cases fuel with
  | zero => rfl
  | succ n => rfl

/-- C6: for a non-empty `s` containing no dollar character, rendering
`$s$` produces exactly the three parts JS `split` returns — empty text,
the matched `$s$` as one inline math token with exactly the outer pair
stripped, empty text — and hence exactly one typesetting call, receiving
exactly `s`, in inline (non-display) mode with no fallback flag. -/
theorem formatted_dollar_wrap (s : List Char) (hne : s ≠ [])
    (hnd : ∀ c ∈ s, c ≠ '$') :
    formattedUnits ('$' :: (s ++ ['$'])) =
      [.plain [], .mathCall s false false, .plain []] ∧
    mathCallsOf (formattedUnits ('$' :: (s ++ ['$']))) = [(s, false, false)] := by
  match s, hne with
  | c :: cs, _ =>
    simp only [List.cons_append]
    have hc : c ≠ '$' := hnd c (by simp)
    have hcs : ∀ x ∈ cs, x ≠ '$' := fun x hx => hnd x (by simp [hx])
    have htry := tryDelimAt_wrap c cs hc hcs
    have hfind : findFirstDelim ('$' :: c :: (cs ++ ['$'])) =
        some ([], '$' :: c :: (cs ++ ['$']), []) := by
      rw [findFirstDelim, htry]
    have hsplit : delimSplitList ('$' :: c :: (cs ++ ['$'])) =
        [[], '$' :: c :: (cs ++ ['$']), []] := by
      rw [delimSplitList, delimSplitF_succ _ _ _ _ _ hfind (by simp),
        delimSplitF_nil]
    have hdrop : ('$' :: c :: (cs ++ ['$'])).drop 1 = c :: (cs ++ ['$']) := rfl
    have hlast : (c :: (cs ++ ['$'])).dropLast = c :: cs := by
      rw [← List.cons_append, List.dropLast_concat]
    have hclass : classifyPart ('$' :: c :: (cs ++ ['$'])) =
        [.mathCall (c :: cs) false false] := by
      have hdd : startsW ['$', '$'] ('$' :: c :: (cs ++ ['$'])) = false := by
        simp [startsW, matchExact, hc]
      simp [classifyPart, hdd, startsW, matchExact, slice1, hdrop, hlast, hc]
    have hclassnil : classifyPart [] = [.plain []] := by
      simp [classifyPart, startsW, matchExact, implicitUnits_nil]
    constructor
    · rw [formattedUnits, if_neg (by simp), hsplit]
      simp [hclass, hclassnil]
    · rw [formattedUnits, if_neg (by simp), hsplit]
      simp [hclass, hclassnil, mathCallsOf]

/-- Witness for C6 at `s = "a+b"`. -/
theorem formatted_dollar_wrap_witness :
    formattedUnits "$a+b$".toList =
      [.plain [], .mathCall "a+b".toList false false, .plain []] := by
  have h := (formatted_dollar_wrap "a+b".toList (by decide) (by decide)).1
  exact h

/-! ## C7 — render-failure policy -/

/-- A concrete renderer that always fails with reason `bad`. -/
def renderAlwaysFail : List Char → Bool → Except (List Char) Unit :=
  fun _ _ => .error "bad".toList

/-- C7 counterexample: an explicit-delimiter token failing in
`FormattedText`'s `MathRenderer` is shown as the red code indicator
containing only the offending source — the render failure reason `bad`
appears nowhere in the displayed output, and no quirks-mode distinction
exists on this path, contradicting the claim that every explicit-delimiter
failure displays the failure reason. -/
theorem mathRenderer_error_hides_reason_cex :
    MathRenderer true renderAlwaysFail ['x'] false false = .errorCode ['x'] ∧
    mathOutTexts (MathRenderer true renderAlwaysFail ['x'] false false)
      = [['x']] ∧
    "bad".toList ∉ mathOutTexts (MathRenderer true renderAlwaysFail ['x'] false false) := by
  refine ⟨rfl, rfl, ?_⟩
  decide

/-- C7 (amended): when a typesetting call fails, (a) a heuristic-guess
token (`fallback = true`) is displayed as its literal text, not an error;
(b) an explicit-delimiter token in `FormattedText`'s `MathRenderer` is
displayed as an error indicator showing the offending source only — the
failure reason is not displayed and there is no quirks-mode distinction;
(c) in the preview's `MathBlock` the error card shows the offending
source, uses the distinguished header/help exactly when the reason
mentions "quirks mode" (the missing-DOCTYPE case), and shows the raw
reason otherwise. -/
theorem render_failure_policy (render : List Char → Bool → Except (List Char) Unit)
    (content e : List Char) (d : Bool) (hfail : render content d = .error e) :
    MathRenderer true render content d true = .literalText content ∧
    MathRenderer true render content d false = .errorCode content ∧
    mathOutTexts (MathRenderer true render content d false) = [content] ∧
    (∀ render2 e2, render2 (stripMathDelims content) d = Except.error e2 →
      MathBlock true render2 content d =
        some ⟨containsSubL e2 "quirks mode".toList,
          containsSubL e2 "quirks mode".toList, content,
          if containsSubL e2 "quirks mode".toList then none else some e2⟩) := by
  refine ⟨?_, ?_, ?_, ?_⟩
  · simp [MathRenderer, hfail]
  · simp [MathRenderer, hfail]
  · simp [MathRenderer, hfail, mathOutTexts]
  · intro render2 e2 h2
    simp [MathBlock, h2]

/-- Witness for C7's amended theorem: a failing renderer with a
quirks-mode reason and one with a plain reason. -/
theorem render_failure_policy_witness :
    MathRenderer true renderAlwaysFail "$a+$".toList false true =
      .literalText "$a+$".toList ∧
    MathBlock true renderAlwaysFail "$a+$".toList false =
      some ⟨false, false, "$a+$".toList, some "bad".toList⟩ := by
  have h := render_failure_policy renderAlwaysFail "$a+$".toList "bad".toList false rfl
  refine ⟨h.1, ?_⟩
  have hb := h.2.2.2 renderAlwaysFail "bad".toList rfl
  rw [hb]
  decide

/-! ## C8 — implicit-math scenarios -/

/-- C8: the un-delimited input `a=2` is detected by the implicit-math
heuristic (alternative `\b[a-z]\s*=\s*[\d\.\-]+` of the regex) and
submitted to the math engine as one inline fallback call carrying exactly
`a=2`, while `a b c` matches no implicit-math pattern and is rendered as a
single plain-text unit with no engine call. -/
theorem implicit_math_scenarios :
    formattedUnits "a=2".toList =
      [.plain [], .mathCall "a=2".toList false true, .plain []] ∧
    mathCallsOf (formattedUnits "a=2".toList) = [("a=2".toList, false, true)] ∧
    formattedUnits "a b c".toList = [.plain "a b c".toList] ∧
    mathCallsOf (formattedUnits "a b c".toList) = [] := by
  refine ⟨?_, ?_, ?_, ?_⟩ <;> decide

/-! ## C9 — autocomplete replacement span -/

theorem lastIndexOfBS_none (l : List Char) (h : ∀ c ∈ l, c ≠ '\\') :
    lastIndexOfBS l = none := by
  induction l with
  | nil => rfl
  | cons c cs ih =>
    have hc : c ≠ '\\' := h c (by simp)
    rw [lastIndexOfBS, ih fun x hx => h x (by simp [hx])]
    simp [hc]

theorem lastIndexOfBS_append (a b : List Char) (hb : ∀ c ∈ b, c ≠ '\\') :
    lastIndexOfBS (a ++ '\\' :: b) = some a.length := by
  induction a with
  | nil =>
    rw [List.nil_append, lastIndexOfBS, lastIndexOfBS_none b hb]
    simp
  | cons c cs ih =>
    rw [List.cons_append, lastIndexOfBS, ih]
    simp

/-- C9 counterexample: with the editor text consisting of an escaped
backslash `\\` (caret after it), the spec's last *unescaped* backslash is
the first one (index 0), but `applySuggestion` replaces from
`lastIndexOf('\\')` — the second, escaped one — producing `\\alpha` with
the caret at 7 instead of the claimed `\alpha` with the caret at 6. -/
theorem applySuggestion_escaped_backslash_cex :
    lastUnescapedBS ['\\', '\\'] = some 0 ∧
    applySuggestion ['\\', '\\'] 2 "\\alpha".toList =
      some ('\\' :: "\\alpha".toList, 7) ∧
    applySuggestion ['\\', '\\'] 2 "\\alpha".toList ≠
      some ("\\alpha".toList, 6) := by
  refine ⟨rfl, rfl, ?_⟩
  decide

/-- C9 (amended): accepting a suggestion replaces exactly the span from
the last backslash before the caret — whether or not that backslash is
itself escaped — up to the caret, and places the caret immediately after
the inserted command: for a buffer `(a ++ '\\' :: b) ++ c` with the caret
right after `b` (position `a.length + 1 + b.length`) and no backslash in
`b`, the result is `a ++ cmd ++ c` with the caret at
`a.length + cmd.length`. -/
theorem applySuggestion_replaces_span (a b c cmd : List Char)
    (hb : ∀ x ∈ b, x ≠ '\\') :
    applySuggestion ((a ++ '\\' :: b) ++ c) (a ++ '\\' :: b).length cmd =
      some (a ++ cmd ++ c, a.length + cmd.length) := by
  have htake : ((a ++ '\\' :: b) ++ c).take (a ++ '\\' :: b).length =
      a ++ '\\' :: b := List.take_left _ _
  have hlast : lastIndexOfBS (((a ++ '\\' :: b) ++ c).take (a ++ '\\' :: b).length) =
      some a.length := by
    rw [htake]
    exact lastIndexOfBS_append a b hb
  rw [applySuggestion, hlast]
  have htake2 : ((a ++ '\\' :: b) ++ c).take a.length = a := by
    rw [List.append_assoc]
    exact List.take_left a _
  have hdrop : ((a ++ '\\' :: b) ++ c).drop (a ++ '\\' :: b).length = c :=
    List.drop_left _ _
  dsimp only
  rw [htake2, hdrop]

/-- Witness for C9's amended theorem: in `x\al` with the caret at the end,
accepting `\alpha` yields `x\alpha` with the caret at 7. -/
theorem applySuggestion_replaces_span_witness :
    applySuggestion "x\\al".toList 4 "\\alpha".toList =
      some ("x\\alpha".toList, 7) := by
  have h := applySuggestion_replaces_span ['x'] ['a', 'l'] [] "\\alpha".toList
    (by decide)
  simpa using h

end AutoGrade
